import Mathlib

/-!
Verification of the FashionTrendyfor.fi data pipeline: normalization,
dataset bucketing, cascading filters, distribution aggregation, folder
resolution and pie-chart geometry.

JavaScript strings are modelled as lists of UTF-16 code units
(`JStr := List Nat`); the character-class predicates cover the ASCII
fragment exercised by the data (the source never feeds non-ASCII input
to these helpers).  JavaScript objects used as string-keyed count maps
are modelled as association lists in insertion order, which matches the
ECMAScript own-property order for non-index-like string keys, and
`Array.prototype.sort` is modelled by a stable insertion sort, matching
the stability ECMAScript guarantees.
-/

/-- A JavaScript string as its list of UTF-16 code units. -/
abbrev JStr := List Nat

/-- Embed a Lean string literal as a `JStr` (ASCII/BMP code points). -/
def jstr (s : String) : JStr := s.data.map Char.toNat

/-- ASCII fragment of the JS `\s` character class (space, tab, LF, VT, FF, CR). -/
def isWsChar (n : Nat) : Bool :=
  n == 32 || n == 9 || n == 10 || n == 11 || n == 12 || n == 13

/-- Characters treated as separators by the normalizer: whitespace, `-` (45), `_` (95). -/
def isSepChar (n : Nat) : Bool := isWsChar n || n == 45 || n == 95

/-- ASCII fragment of `String.prototype.toLowerCase` on one code unit. -/
def jsLowerChar (n : Nat) : Nat := if 65 ≤ n ∧ n ≤ 90 then n + 32 else n

/-- ASCII fragment of `String.prototype.toUpperCase` on one code unit. -/
def jsUpperChar (n : Nat) : Nat := if 97 ≤ n ∧ n ≤ 122 then n - 32 else n

/-- `s.toLowerCase()`. -/
def jsLower (v : JStr) : JStr := v.map jsLowerChar

/-- `s.replace(/[-_]/g, ' ')` on one code unit. -/
def sepToSpaceChar (n : Nat) : Nat := if n == 45 || n == 95 then 32 else n

/-- `s.replace(/[-_]/g, ' ')`. -/
def sepToSpace (v : JStr) : JStr := v.map sepToSpaceChar

/-- `s.replace(/p+/g, r)`: every maximal run of characters satisfying `p`
becomes the single character `r`.  The boolean flag records whether the
previous character was part of a run (so only the first character of a
run emits `r`). -/
def replRuns (p : Nat → Bool) (r : Nat) : JStr → Bool → JStr
  | [], _ => []
  | c :: cs, inRun =>
    if p c then
      if inRun then replRuns p r cs true else r :: replRuns p r cs true
    else
      c :: replRuns p r cs false

/-- `s.replace(/\s+/g, ' ')`. -/
def collapseWs (v : JStr) : JStr := replRuns isWsChar 32 v false

/-- `s.replace(/\s+/g, '-')` (the "slug" step used for dataset ids and folder keys). -/
def wsToHyphen (v : JStr) : JStr := replRuns isWsChar 45 v false

/-- Remove trailing whitespace (the right half of `String.prototype.trim`). -/
def trimEnd : JStr → JStr
  | [] => []
  | c :: cs =>
    match trimEnd cs with
    | [] => if isWsChar c then [] else [c]
    | r => c :: r

/-- `s.trim()` (ASCII whitespace). -/
def jsTrim (v : JStr) : JStr := (trimEnd v).dropWhile isWsChar

/-- `normalizeSeason` from the Data page: lower-case, replace `-`/`_` by
spaces, collapse whitespace runs to single spaces, trim. -/
def normalizeSeason (v : JStr) : JStr := jsTrim (collapseWs (sepToSpace (jsLower v)))

example : normalizeSeason (jstr "Fall-Winter 2025") = jstr "fall winter 2025" := by decide
example : normalizeSeason (jstr "fall_winter_2025") = jstr "fall winter 2025" := by decide
example : normalizeSeason (jstr "Fall  Winter   2025") = jstr "fall winter 2025" := by decide

/-- `w.charAt(0).toUpperCase() + w.slice(1)`. -/
def capFirst : JStr → JStr
  | [] => []
  | c :: cs => jsUpperChar c :: cs

/-- `needle` occurs as a contiguous substring of `hay` (`hay.includes(needle)`). -/
def jsIncludes (hay needle : JStr) : Bool := decide (needle <:+: hay)

/-- A garment record as fetched from the analysis endpoint (the
`FashionItem` interface, plus the `designer` field some deployments use
instead of `brand`; an absent string field is the empty string). -/
structure FashionItem where
  item_name : JStr
  color_name : JStr
  materials : JStr
  color_hex : JStr
  brand : JStr
  designer : JStr
  collection : JStr
  season : JStr
  original_image_name : JStr
  deriving DecidableEq, Repr

/-- `item.designer || item.brand || ''`. -/
def designerOrBrand (it : FashionItem) : JStr :=
  if it.designer ≠ [] then it.designer else it.brand

/-- `(item.designer || 'Unknown Designer').trim()` from dataset detection. -/
def designerOrDefault (it : FashionItem) : JStr :=
  jsTrim (if it.designer ≠ [] then it.designer else jstr "Unknown Designer")

/-- `(item.season || 'Unknown Season').trim()` from dataset detection. -/
def seasonOrDefault (it : FashionItem) : JStr :=
  jsTrim (if it.season ≠ [] then it.season else jstr "Unknown Season")

/-- The synthetic dataset id from `fetchAndDetectDatasets`:
`designer.toLowerCase().replace(/\s+/g,'-') + '-' + season.toLowerCase().replace(/\s+/g,'-')`.
Records land in the same detected dataset exactly when their ids coincide
(the dataset `Map` is keyed by this string). -/
def datasetId (it : FashionItem) : JStr :=
  wsToHyphen (jsLower (designerOrDefault it)) ++ 45 :: wsToHyphen (jsLower (seasonOrDefault it))

/-! ### Folder resolution (`FashionDashboard.tsx`) -/

/-- Lookup in an association list keyed by `JStr` (a JS object used as a map). -/
def lookupJ (m : List (JStr × α)) (k : JStr) : Option α :=
  (m.find? (fun p => p.1 == k)).map (·.2)

/-- The hardcoded `folderMap` constant. -/
def folderMap : List (JStr × List (JStr × JStr)) :=
  [ (jstr "louis vuitton",
      [ (jstr "fall-winter-2025", jstr "louis-vuitton-ready-to-wear-fall-winter-2025-paris"),
        (jstr "spring-summer-2025", jstr "louis-vuitton-ready-to-wear-spring-winter-2025-paris") ]),
    (jstr "chanel",
      [ (jstr "fall-winter-2025", jstr "chanel-ready-to-wear-fall-winter-2025-paris"),
        (jstr "spring-summer-2025", jstr "chanel-ready-to-wear-spring-winter-2025-paris") ]),
    (jstr "miu miu",
      [ (jstr "fall-winter-2025", jstr "miu-miu-ready-to-wear-fall-winter-2025-paris"),
        (jstr "spring-summer-2025", jstr "miu-miu-ready-to-wear-spring-winter-2025-paris") ]) ]

/-- `folderMap[brandKey]?.[seasonKey]` with
`brandKey = brand.toLowerCase()` and
`seasonKey = season.toLowerCase().replace(/\s+/g, '-')`. -/
def resolvedFolder (brand season : JStr) : Option JStr :=
  (lookupJ folderMap (jsLower brand)).bind
    (fun inner => lookupJ inner (wsToHyphen (jsLower season)))

/-- `getFolder`: the optional-chaining lookup, with `|| 'fashion-intelligence-input'`
replacing both a missing entry and an empty-string entry. -/
def getFolder (brand season : JStr) : JStr :=
  match resolvedFolder brand season with
  | some v => if v == [] then jstr "fashion-intelligence-input" else v
  | none => jstr "fashion-intelligence-input"

/-- Modelled from the spec: the synthesized fallback folder
`"{slug(brand)}-ready-to-wear-{slug(season)}-paris"` described in §4.2,
where `slug` lower-cases and replaces whitespace runs with single
hyphens.  This rule appears in the spec only; the source `getFolder`
has no synthesis step, so this definition exists to compare the two. -/
def specSynthesizedFolder (brand season : JStr) : JStr :=
  wsToHyphen (jsLower brand) ++ jstr "-ready-to-wear-" ++ wsToHyphen (jsLower season) ++ jstr "-paris"

example : getFolder (jstr "Chanel") (jstr "Fall Winter 2025") =
    jstr "chanel-ready-to-wear-fall-winter-2025-paris" := by decide
example : getFolder (jstr "Unknown Brand") (jstr "Spring 2025") =
    jstr "fashion-intelligence-input" := by decide

/-! ### Filter engine (Data page) -/

/-- The five user-selected predicates; the empty string means "no filter". -/
structure Filters where
  brand : JStr
  season : JStr
  color : JStr
  item : JStr
  material : JStr
  deriving DecidableEq, Repr

/-- No active filters (`clearFilters`). -/
def emptyFilters : Filters := ⟨[], [], [], [], []⟩

/-- The filtering effect of the Data page: starting from `allData`, each
non-empty predicate refilters the running list; each test is
case-insensitive substring containment on the raw field (season compares
`normalizeSeason`-normalized forms). -/
def applyFilters (allData : List FashionItem) (fs : Filters) : List FashionItem :=
  let f1 := allData
  let f2 := if fs.brand ≠ [] then
      f1.filter (fun it => jsIncludes (jsLower (designerOrBrand it)) (jsLower fs.brand))
    else f1
  let f3 := if fs.season ≠ [] then
      f2.filter (fun it => jsIncludes (normalizeSeason it.season) (normalizeSeason fs.season))
    else f2
  let f4 := if fs.color ≠ [] then
      f3.filter (fun it => jsIncludes (jsLower it.color_name) (jsLower fs.color))
    else f3
  let f5 := if fs.item ≠ [] then
      f4.filter (fun it => jsIncludes (jsLower it.item_name) (jsLower fs.item))
    else f4
  if fs.material ≠ [] then
    f5.filter (fun it => jsIncludes (jsLower it.materials) (jsLower fs.material))
  else f5

/-- `formatSeasonForDisplay`: normalize, then capitalize each
space-separated word and join the words with hyphens. -/
def formatSeasonForDisplay (season : JStr) : JStr :=
  let normalized := jsTrim (collapseWs (sepToSpace (jsLower season)))
  List.intercalate [45] ((normalized.splitOn 32).map capFirst)

example : formatSeasonForDisplay (jstr "fall_winter 2025") = jstr "Fall-Winter-2025" := by decide

/-- The five dropdowns of the Data page. -/
inductive FilterKey | brand | season | color | item | material
  deriving DecidableEq, Repr

/-- The raw value `getUniqueValues` extracts from a record for a dropdown
(the season value is already display-formatted at this point). -/
def extractValue (k : FilterKey) (it : FashionItem) : JStr :=
  match k with
  | .brand => designerOrBrand it
  | .season => formatSeasonForDisplay it.season
  | .color => it.color_name
  | .item => it.item_name
  | .material => it.materials

/-- The value actually offered in the dropdown: seasons are added as
formatted, every other field is capitalized first. -/
def offeredValue (k : FilterKey) (it : FashionItem) : JStr :=
  if k = .season then extractValue k it else capFirst (extractValue k it)

/-- JS `Set` insertion modelled on lists: append if not yet present. -/
def setAdd (acc : List JStr) (v : JStr) : List JStr :=
  if v ∈ acc then acc else acc ++ [v]

/-- Default `Array.prototype.sort` comparison: lexicographic on code units. -/
def lexLe : JStr → JStr → Bool
  | [], _ => true
  | _ :: _, [] => false
  | a :: as, b :: bs => if a < b then true else if b < a then false else lexLe as bs

/-- Stable insertion of `x` before the first element it `le`-precedes. -/
def insertBy (le : α → α → Bool) (x : α) : List α → List α
  | [] => [x]
  | h :: t => if le x h then x :: h :: t else h :: insertBy le x t

/-- Stable insertion sort; models the (stable) `Array.prototype.sort`. -/
def sortBy (le : α → α → Bool) : List α → List α
  | [] => []
  | x :: xs => insertBy le x (sortBy le xs)

/-- `getUniqueValues` of the Data page: collect the (non-blank, formatted)
values of `sourceData` into a `Set`, where `sourceData` is the filtered
subset when it is non-empty and otherwise the full record list, and
return them sorted. -/
def getUniqueValues (allData : List FashionItem) (fs : Filters) (k : FilterKey) : List JStr :=
  let filteredData := applyFilters allData fs
  let sourceData := if filteredData.length > 0 then filteredData else allData
  let values := sourceData.foldl
    (fun acc it =>
      if jsTrim (extractValue k it) ≠ [] then setAdd acc (offeredValue k it) else acc)
    []
  sortBy lexLe values

/-! ### Distribution aggregator (`FashionDashboard.tsx`) -/

/-- `counts[name] = (counts[name] || 0) + 1` on the association-list model:
bump an existing key in place, or append a fresh key with count 1. -/
def bump : List (JStr × Nat) → JStr → List (JStr × Nat)
  | [], k => [(k, 1)]
  | (a, v) :: t, k => if a = k then (a, v + 1) :: t else (a, v) :: bump t k

/-- Group records by the capitalized value of one field and count them
(the common body of `calculateColorDistribution`,
`calculateItemDistribution` and `calculateMaterialDistribution`). -/
def calculateDistribution (f : FashionItem → JStr) (rawData : List FashionItem) :
    List (JStr × Nat) :=
  rawData.foldl (fun acc it => bump acc (capFirst (f it))) []

/-- `calculateColorDistribution`. -/
def calculateColorDistribution (rawData : List FashionItem) : List (JStr × Nat) :=
  calculateDistribution (·.color_name) rawData

/-- `calculateItemDistribution`. -/
def calculateItemDistribution (rawData : List FashionItem) : List (JStr × Nat) :=
  calculateDistribution (·.item_name) rawData

/-- `calculateMaterialDistribution`. -/
def calculateMaterialDistribution (rawData : List FashionItem) : List (JStr × Nat) :=
  calculateDistribution (·.materials) rawData

/-- Which chart a distribution feeds. -/
inductive DistType | color | item | material
  deriving DecidableEq, Repr

/-- One aggregated bucket as handed to the pie chart. -/
structure Bucket where
  name : JStr
  value : Nat
  color : Option JStr
  deriving DecidableEq, Repr

/-- The descending-by-count comparison used by
`Object.entries(distribution).sort(([,a],[,b]) => b - a)`; the insertion
sort with this test is stable, as ECMAScript requires. -/
def descValue (a b : JStr × Nat) : Bool := b.2 ≤ a.2

/-- `formatDistributionData`: sort the count entries descending, keep the
first 10, and for the color chart attach the hex of the first record
whose capitalized color name matches (gray `#808080` when missing). -/
def formatDistributionData (rawData : List FashionItem) (distribution : List (JStr × Nat))
    (ty : DistType) : List Bucket :=
  let entries := (sortBy descValue distribution).take 10
  match ty with
  | .color =>
    entries.map (fun p =>
      { name := p.1, value := p.2,
        color := some
          (match rawData.find? (fun it => capFirst it.color_name == p.1) with
           | some it => if it.color_hex ≠ [] then it.color_hex else jstr "#808080"
           | none => jstr "#808080") })
  | _ => entries.map (fun p => { name := p.1, value := p.2, color := none })

/-! ### Pie chart geometry (`PieChart.tsx`) -/

/-- One pie-chart input datum (`PieChartData`); `value` is a JS number,
modelled exactly as a rational. -/
structure PieDatum where
  name : JStr
  value : ℚ
  color : Option JStr
  deriving DecidableEq, Repr

/-- `displayData = data.slice(0, 10)`. -/
def pieDisplayData (data : List PieDatum) : List PieDatum := data.take 10

/-- `total = displayData.reduce((sum, item) => sum + item.value, 0)`. -/
def pieTotal (data : List PieDatum) : ℚ := ((pieDisplayData data).map (·.value)).sum

/-- The angle pairs of the slice loop: each slice spans
`[cum * 3.6, (cum + pct) * 3.6]` with `pct = value / total * 100`, and
`cum` accumulates the percentages. -/
def sliceAngles (total : ℚ) : ℚ → List PieDatum → List (ℚ × ℚ)
  | _, [] => []
  | cum, b :: t =>
    let pct := b.value / total * 100
    (cum * 3.6, (cum + pct) * 3.6) :: sliceAngles total (cum + pct) t

/-- The rendered slices: none at all when `total === 0` (the "No data"
branch), otherwise one angle pair per displayed datum, in input order,
starting at `cum = 0`. -/
def pieSlices (data : List PieDatum) : List (ℚ × ℚ) :=
  if pieTotal data = 0 then [] else sliceAngles (pieTotal data) 0 (pieDisplayData data)

/-- The percentages shown in labels and tooltips (before `toFixed`):
`value / total * 100` over the displayed data. -/
def piePercentages (data : List PieDatum) : List ℚ :=
  if pieTotal data = 0 then [] else (pieDisplayData data).map (fun b => b.value / pieTotal data * 100)

/-- The angular span of a slice. -/
def sliceSpan (p : ℚ × ℚ) : ℚ := p.2 - p.1

/-- Normal form shared by the normalizers: collapse every run of
separator characters (whitespace, `-`, `_`) into a single space. -/
def collapseSep (v : JStr) (b : Bool) : JStr := replRuns isSepChar 32 v b

/-- Flag state after a run-replacement pass (whether the last processed
character was part of a run). -/
def endFlag (p : Nat → Bool) : JStr → Bool → Bool
  | [], b => b
  | c :: cs, _ => endFlag p cs (p c)

/-- The distinct elements of a list in first-occurrence order (the key
order of a JS object built by repeated `obj[k] = ...`). -/
def foList : List JStr → List JStr
  | [] => []
  | x :: xs => x :: (foList xs).filter (· != x)

/-- "Descending by count, ties in the order `R`": the shape of the output
of a stable descending sort whose input is pairwise `R`-related. -/
def descTie (R : (JStr × Nat) → (JStr × Nat) → Prop) (a b : JStr × Nat) : Prop :=
  b.2 < a.2 ∨ (a.2 = b.2 ∧ R a b)

/-- Index of the first occurrence of `a` (JS `findIndex`); the list
length when absent. -/
def firstIdx (a : JStr) : List JStr → Nat
  | [] => 0
  | x :: xs => if x = a then 0 else firstIdx a xs + 1

/-- A record passes the filter set: every non-empty predicate's
containment test succeeds (an empty predicate imposes no constraint). -/
def passesFilters (fs : Filters) (it : FashionItem) : Prop :=
  (fs.brand ≠ [] → jsIncludes (jsLower (designerOrBrand it)) (jsLower fs.brand) = true) ∧
  (fs.season ≠ [] → jsIncludes (normalizeSeason it.season) (normalizeSeason fs.season) = true) ∧
  (fs.color ≠ [] → jsIncludes (jsLower it.color_name) (jsLower fs.color) = true) ∧
  (fs.item ≠ [] → jsIncludes (jsLower it.item_name) (jsLower fs.item) = true) ∧
  (fs.material ≠ [] → jsIncludes (jsLower it.materials) (jsLower fs.material) = true)

/-- `P ⊆ Q` on predicate sets: every active predicate of `P` appears
identically in `Q` (so `Q` is at least as strict). -/
def filtersSubset (P Q : Filters) : Prop :=
  (P.brand = [] ∨ P.brand = Q.brand) ∧
  (P.season = [] ∨ P.season = Q.season) ∧
  (P.color = [] ∨ P.color = Q.color) ∧
  (P.item = [] ∨ P.item = Q.item) ∧
  (P.material = [] ∨ P.material = Q.material)

/-- Sample record: a red wool Chanel coat from Fall-Winter 2025. -/
def sampleCoat : FashionItem :=
  { item_name := jstr "Coat", color_name := jstr "red", materials := jstr "wool",
    color_hex := jstr "#FF0000", brand := jstr "Chanel", designer := jstr "Chanel",
    collection := jstr "Ready To Wear", season := jstr "Fall-Winter 2025",
    original_image_name := jstr "a.jpg" }

/-- Sample record: the same coat with the season spelled with underscores. -/
def sampleCoatUnderscore : FashionItem :=
  { sampleCoat with season := jstr "fall_winter_2025", original_image_name := jstr "b.jpg" }

/-- Sample record: a blue silk Chanel skirt from Fall-Winter 2025. -/
def sampleSkirt : FashionItem :=
  { item_name := jstr "Skirt", color_name := jstr "blue", materials := jstr "silk",
    color_hex := jstr "#0000FF", brand := jstr "Chanel", designer := jstr "Chanel",
    collection := jstr "Ready To Wear", season := jstr "Fall-Winter 2025",
    original_image_name := jstr "c.jpg" }

/-- The three-record scenario from the spec: `[Coat, Coat, Skirt]`. -/
def coatCoatSkirt : List FashionItem :=
  [sampleCoat, { sampleCoat with original_image_name := jstr "d.jpg" }, sampleSkirt]

/-- Sample record: the coat with its season spelled with plain spaces. -/
def sampleCoatSpaced : FashionItem :=
  { sampleCoat with season := jstr "Fall Winter 2025" }

/-- Sample record: the same (designer, season) pair with different casing
and extra whitespace, so the slugs coincide. -/
def sampleCoatSpaced2 : FashionItem :=
  { sampleCoat with designer := jstr "chanel", season := jstr " fall  winter 2025 " }

/-- One pie datum of weight 1 (smallest chart input with positive total). -/
def pieOne : List PieDatum := [{ name := jstr "Coat", value := 1, color := none }]

/-- Eleven pie data all of weight 0 (displayed total is zero). -/
def pieZero11 : List PieDatum :=
  List.replicate 11 { name := jstr "x", value := 0, color := none }

/-- Eleven pie data whose first ten have positive total. -/
def pieEleven : List PieDatum :=
  { name := jstr "x", value := 1, color := none } ::
    List.replicate 10 { name := jstr "y", value := 0, color := none }

/-! ## Character-level lemmas -/

theorem isWsChar_sepToSpaceChar (c : Nat) : isWsChar (sepToSpaceChar c) = isSepChar c := by
  by_cases h1 : c = 45
  · simp [h1, sepToSpaceChar, isSepChar, isWsChar]
  · by_cases h2 : c = 95
    · simp [h2, sepToSpaceChar, isSepChar, isWsChar]
    · have e1 : (c == 45) = false := by simp [h1]
      have e2 : (c == 95) = false := by simp [h2]
      simp [sepToSpaceChar, isSepChar, e1, e2]

theorem sepToSpaceChar_of_not_sep {c : Nat} (h : isSepChar c = false) : sepToSpaceChar c = c := by
  simp only [isSepChar, Bool.or_eq_false_iff] at h
  simp [sepToSpaceChar, h.1.2, h.2]

theorem ws_of_sep_false {c : Nat} (h : isSepChar c = false) : isWsChar c = false := by
  simp only [isSepChar, Bool.or_eq_false_iff] at h
  exact h.1.1

theorem sep_of_ws {c : Nat} (h : isWsChar c = true) : isSepChar c = true := by
  simp [isSepChar, h]

theorem isWsChar_jsLowerChar (c : Nat) : isWsChar (jsLowerChar c) = isWsChar c := by
  unfold jsLowerChar
  split
  · next h =>
    have h1 : isWsChar (c + 32) = false := by
      simp only [isWsChar, Bool.or_eq_false_iff, beq_eq_false_iff_ne, ne_eq]
      omega
    have h2 : isWsChar c = false := by
      simp only [isWsChar, Bool.or_eq_false_iff, beq_eq_false_iff_ne, ne_eq]
      omega
    rw [h1, h2]
  · rfl

theorem jsLowerChar_idem (c : Nat) : jsLowerChar (jsLowerChar c) = jsLowerChar c := by
  unfold jsLowerChar
  split
  · next h =>
    have hno : ¬ (65 ≤ c + 32 ∧ c + 32 ≤ 90) := by omega
    rw [if_neg hno]
  · rfl

/-! ## Run-replacement lemmas -/

theorem replRuns_map_of_class (p q : Nat → Bool) (r : Nat) (f : Nat → Nat)
    (hcl : ∀ c, p (f c) = q c) (hid : ∀ c, q c = false → f c = c) :
    ∀ (v : JStr) (b : Bool), replRuns p r (v.map f) b = replRuns q r v b := by
  intro v
  induction v with
  | nil => intro b; rfl
  | cons c cs ih =>
    intro b
    simp only [List.map_cons, replRuns, hcl c]
    cases hq : q c
    · simp [hq, hid c hq, ih]
    · cases b <;> simp [hq, ih]

theorem collapseWs_sepToSpace (v : JStr) : collapseWs (sepToSpace v) = collapseSep v false := by
  unfold collapseWs sepToSpace collapseSep
  refine replRuns_map_of_class _ _ _ _ ?_ ?_ v false
  · exact isWsChar_sepToSpaceChar
  · intro c hc
    exact sepToSpaceChar_of_not_sep hc

theorem collapseSep_wsToHyphen_aux (v : JStr) :
    collapseSep (replRuns isWsChar 45 v false) false = collapseSep v false ∧
    collapseSep (replRuns isWsChar 45 v true) true = collapseSep v true ∧
    collapseSep (replRuns isWsChar 45 v false) true = collapseSep v true := by
  induction v with
  | nil => exact ⟨rfl, rfl, rfl⟩
  | cons c cs ih =>
    obtain ⟨ih1, ih2, ih3⟩ := ih
    have h45 : isSepChar 45 = true := by decide
    simp only [collapseSep] at ih1 ih2 ih3 ⊢
    by_cases hw : isWsChar c = true
    · have hs : isSepChar c = true := sep_of_ws hw
      refine ⟨?_, ?_, ?_⟩
      · simp [replRuns, hw, hs, h45, ih2]
      · simp [replRuns, hw, hs, h45, ih2]
      · simp [replRuns, hw, hs, h45, ih2]
    · have hwf : isWsChar c = false := by simpa using hw
      by_cases hsep : isSepChar c = true
      · refine ⟨?_, ?_, ?_⟩
        · simp [replRuns, hwf, hsep, ih3]
        · simp [replRuns, hwf, hsep, ih3]
        · simp [replRuns, hwf, hsep, ih3]
      · have hsf : isSepChar c = false := by simpa using hsep
        refine ⟨?_, ?_, ?_⟩
        · simp [replRuns, hwf, hsf, ih1]
        · simp [replRuns, hwf, hsf, ih1]
        · simp [replRuns, hwf, hsf, ih1]

theorem collapseSep_wsToHyphen (v : JStr) :
    collapseSep (wsToHyphen v) false = collapseSep v false :=
  (collapseSep_wsToHyphen_aux v).1

theorem collapseSep_idem_aux (v : JStr) :
    collapseSep (collapseSep v false) false = collapseSep v false ∧
    collapseSep (collapseSep v true) true = collapseSep v true := by
  induction v with
  | nil => exact ⟨rfl, rfl⟩
  | cons c cs ih =>
    obtain ⟨ih1, ih2⟩ := ih
    have h32 : isSepChar 32 = true := by decide
    simp only [collapseSep] at ih1 ih2 ⊢
    by_cases hs : isSepChar c = true
    · constructor
      · simp [replRuns, hs, h32, ih2]
      · simp [replRuns, hs, h32, ih2]
    · have hsf : isSepChar c = false := by simpa using hs
      constructor
      · simp [replRuns, hsf, ih1]
      · simp [replRuns, hsf, ih1]

theorem collapseSep_idem (v : JStr) :
    collapseSep (collapseSep v false) false = collapseSep v false :=
  (collapseSep_idem_aux v).1

theorem replRuns_append (p : Nat → Bool) (r : Nat) :
    ∀ (x y : JStr) (b : Bool),
      replRuns p r (x ++ y) b = replRuns p r x b ++ replRuns p r y (endFlag p x b) := by
  intro x
  induction x with
  | nil => intro y b; rfl
  | cons c cs ih =>
    intro y b
    simp only [List.cons_append, replRuns, endFlag]
    cases hp : p c
    · simp [ih]
    · cases b <;> simp [ih]

theorem replRuns_allSep {y : JStr} (h : ∀ c ∈ y, isWsChar c = true) :
    replRuns isSepChar 32 y true = [] ∧
      (y = [] ∨ replRuns isSepChar 32 y false = [32]) := by
  induction y with
  | nil => exact ⟨rfl, Or.inl rfl⟩
  | cons c ys ih =>
    have hc : isSepChar c = true := sep_of_ws (h c (List.mem_cons_self _ _))
    have ih' := ih (fun d hd => h d (List.mem_cons_of_mem _ hd))
    constructor
    · simp [replRuns, hc, ih'.1]
    · exact Or.inr (by simp [replRuns, hc, ih'.1])

/-! ## Trim lemmas -/

theorem trimEnd_cons_eq (c : Nat) (cs : JStr) :
    trimEnd (c :: cs) =
      match trimEnd cs with
      | [] => if isWsChar c then [] else [c]
      | r => c :: r := rfl

theorem trimEnd_cons_of_not_ws {c : Nat} (h : isWsChar c = false) (cs : JStr) :
    trimEnd (c :: cs) = c :: trimEnd cs := by
  rw [trimEnd_cons_eq]
  cases hr : trimEnd cs with
  | nil => simp [h]
  | cons d ds => rfl

theorem trimEnd_cons_of_nil {c : Nat} {cs : JStr} (h : trimEnd cs = []) :
    trimEnd (c :: cs) = if isWsChar c then [] else [c] := by
  rw [trimEnd_cons_eq, h]

theorem trimEnd_cons_of_ne_nil {c : Nat} {cs : JStr} (h : trimEnd cs ≠ []) :
    trimEnd (c :: cs) = c :: trimEnd cs := by
  rw [trimEnd_cons_eq]
  cases hr : trimEnd cs with
  | nil => exact absurd hr h
  | cons d ds => rfl

theorem allWs_of_trimEnd_nil : ∀ {v : JStr}, trimEnd v = [] → ∀ c ∈ v, isWsChar c = true := by
  intro v
  induction v with
  | nil => intro _ c hc; simp at hc
  | cons d ds ih =>
    intro h c hc
    by_cases hd : trimEnd ds = []
    · rw [trimEnd_cons_of_nil hd] at h
      rcases List.mem_cons.mp hc with rfl | hc'
      · by_cases hw : isWsChar c = true
        · exact hw
        · simp [hw] at h
      · exact ih hd c hc'
    · rw [trimEnd_cons_of_ne_nil hd] at h
      simp at h

theorem trimEnd_decomp (v : JStr) :
    ∃ y, v = trimEnd v ++ y ∧ ∀ c ∈ y, isWsChar c = true := by
  induction v with
  | nil => exact ⟨[], rfl, by simp⟩
  | cons c cs ih =>
    obtain ⟨y, hy, hws⟩ := ih
    by_cases hd : trimEnd cs = []
    · rw [hd, List.nil_append] at hy
      by_cases hw : isWsChar c = true
      · refine ⟨c :: y, ?_, ?_⟩
        · rw [trimEnd_cons_of_nil hd, if_pos hw, List.nil_append, hy]
        · intro d hdm
          rcases List.mem_cons.mp hdm with rfl | hd2
          · exact hw
          · exact hws d hd2
      · refine ⟨y, ?_, hws⟩
        rw [trimEnd_cons_of_nil hd, if_neg hw, List.cons_append, List.nil_append, ← hy]
    · refine ⟨y, ?_, hws⟩
      rw [trimEnd_cons_of_ne_nil hd, List.cons_append, ← hy]

theorem dropWhile_trimEnd_comm (v : JStr) :
    (trimEnd v).dropWhile isWsChar = trimEnd (v.dropWhile isWsChar) := by
  induction v with
  | nil => rfl
  | cons c cs ih =>
    by_cases hw : isWsChar c = true
    · rw [List.dropWhile_cons_of_pos hw]
      by_cases hd : trimEnd cs = []
      · rw [trimEnd_cons_of_nil hd, if_pos (by simpa using hw)]
        have hnil : cs.dropWhile isWsChar = [] :=
          List.dropWhile_eq_nil_iff.mpr (fun x hx => allWs_of_trimEnd_nil hd x hx)
        rw [hnil]
        rfl
      · rw [trimEnd_cons_of_ne_nil hd, List.dropWhile_cons_of_pos hw, ih]
    · have hwf : isWsChar c = false := by simpa using hw
      rw [List.dropWhile_cons_of_neg hw, trimEnd_cons_of_not_ws hwf,
        List.dropWhile_cons_of_neg hw]

theorem trimEnd_append_space (z : JStr) : trimEnd (z ++ [32]) = trimEnd z := by
  induction z with
  | nil => rfl
  | cons c z' ih =>
    rw [List.cons_append]
    by_cases hd : trimEnd z' = []
    · have h32 : trimEnd (z' ++ [32]) = [] := by rw [ih, hd]
      rw [trimEnd_cons_of_nil h32, trimEnd_cons_of_nil hd]
    · have h32 : trimEnd (z' ++ [32]) ≠ [] := by rw [ih]; exact hd
      rw [trimEnd_cons_of_ne_nil h32, trimEnd_cons_of_ne_nil hd, ih]

theorem trimEnd_collapseSep_append {x y : JStr} (h : ∀ c ∈ y, isWsChar c = true) :
    trimEnd (collapseSep (x ++ y) false) = trimEnd (collapseSep x false) := by
  unfold collapseSep
  rw [replRuns_append]
  obtain ⟨h1, h2⟩ := replRuns_allSep h
  cases hb : endFlag isSepChar x false
  · rcases h2 with rfl | h2'
    · simp [replRuns]
    · rw [h2', trimEnd_append_space]
  · rw [h1, List.append_nil]

theorem trimEnd_collapseSep_trimEnd (u : JStr) :
    trimEnd (collapseSep (trimEnd u) false) = trimEnd (collapseSep u false) := by
  obtain ⟨y, hy, hws⟩ := trimEnd_decomp u
  conv_rhs => rw [hy]
  rw [trimEnd_collapseSep_append hws]

theorem dropWhile_collapseSep_true (v : JStr) :
    (collapseSep (v.dropWhile isWsChar) false).dropWhile isWsChar =
      (collapseSep v true).dropWhile isWsChar := by
  induction v with
  | nil => rfl
  | cons c cs ih =>
    by_cases hw : isWsChar c = true
    · have hs : isSepChar c = true := sep_of_ws hw
      rw [List.dropWhile_cons_of_pos hw]
      have : collapseSep (c :: cs) true = collapseSep cs true := by
        simp [collapseSep, replRuns, hs]
      rw [this, ih]
    · have hwf : isWsChar c = false := by simpa using hw
      rw [List.dropWhile_cons_of_neg hw]
      by_cases hsep : isSepChar c = true
      · have l1 : collapseSep (c :: cs) false = 32 :: collapseSep cs true := by
          simp [collapseSep, replRuns, hsep]
        have l2 : collapseSep (c :: cs) true = collapseSep cs true := by
          simp [collapseSep, replRuns, hsep]
        rw [l1, l2, List.dropWhile_cons_of_pos (by decide : isWsChar 32 = true)]
      · have hsf : isSepChar c = false := by simpa using hsep
        have l1 : collapseSep (c :: cs) false = c :: collapseSep cs false := by
          simp [collapseSep, replRuns, hsf]
        have l2 : collapseSep (c :: cs) true = c :: collapseSep cs false := by
          simp [collapseSep, replRuns, hsf]
        rw [l1, l2]

theorem dropWhile_collapseSep_dropWhile (v : JStr) :
    (collapseSep (v.dropWhile isWsChar) false).dropWhile isWsChar =
      (collapseSep v false).dropWhile isWsChar := by
  cases v with
  | nil => rfl
  | cons c cs =>
    by_cases hw : isWsChar c = true
    · have hs : isSepChar c = true := sep_of_ws hw
      rw [List.dropWhile_cons_of_pos hw, dropWhile_collapseSep_true]
      have : collapseSep (c :: cs) false = 32 :: collapseSep cs true := by
        simp [collapseSep, replRuns, hs]
      rw [this, List.dropWhile_cons_of_pos (by decide : isWsChar 32 = true)]
    · rw [List.dropWhile_cons_of_neg hw]

theorem jsTrim_eq_trimEnd_dropWhile (v : JStr) :
    jsTrim v = trimEnd (v.dropWhile isWsChar) := by
  unfold jsTrim
  exact dropWhile_trimEnd_comm v

theorem jsTrim_collapseSep_jsTrim (w : JStr) :
    jsTrim (collapseSep (jsTrim w) false) = jsTrim (collapseSep w false) := by
  unfold jsTrim
  rw [dropWhile_trimEnd_comm w, trimEnd_collapseSep_trimEnd,
    dropWhile_trimEnd_comm (collapseSep (w.dropWhile isWsChar) false),
    dropWhile_collapseSep_dropWhile,
    ← dropWhile_trimEnd_comm (collapseSep w false)]

theorem trimEnd_map_jsLowerChar (v : JStr) :
    trimEnd (v.map jsLowerChar) = (trimEnd v).map jsLowerChar := by
  induction v with
  | nil => rfl
  | cons c cs ih =>
    rw [List.map_cons]
    by_cases hd : trimEnd cs = []
    · have hd' : trimEnd (cs.map jsLowerChar) = [] := by rw [ih, hd]; rfl
      rw [trimEnd_cons_of_nil hd', trimEnd_cons_of_nil hd, isWsChar_jsLowerChar]
      by_cases hw : isWsChar c = true
      · simp [hw]
      · simp [hw]
    · have hd' : trimEnd (cs.map jsLowerChar) ≠ [] := by
        rw [ih]; simpa using hd
      rw [trimEnd_cons_of_ne_nil hd', trimEnd_cons_of_ne_nil hd, List.map_cons, ih]

theorem jsLower_jsTrim (v : JStr) : jsLower (jsTrim v) = jsTrim (jsLower v) := by
  have hfun : (isWsChar ∘ jsLowerChar) = isWsChar := funext isWsChar_jsLowerChar
  unfold jsLower jsTrim
  calc (List.dropWhile isWsChar (trimEnd v)).map jsLowerChar
      = (List.dropWhile (isWsChar ∘ jsLowerChar) (trimEnd v)).map jsLowerChar := by rw [hfun]
    _ = List.dropWhile isWsChar ((trimEnd v).map jsLowerChar) :=
        (List.dropWhile_map jsLowerChar isWsChar (trimEnd v)).symm
    _ = List.dropWhile isWsChar (trimEnd (v.map jsLowerChar)) := by
        rw [trimEnd_map_jsLowerChar]

theorem mem_replRuns {a r : Nat} {p : Nat → Bool} :
    ∀ {v : JStr} {b : Bool}, a ∈ replRuns p r v b → a = r ∨ a ∈ v := by
  intro v
  induction v with
  | nil => intro b h; simp [replRuns] at h
  | cons c cs ih =>
    intro b h
    simp only [replRuns] at h
    by_cases hp : p c = true
    · simp only [hp, if_true] at h
      cases b with
      | true =>
        simp only [if_true] at h
        rcases ih h with h1 | h2
        · exact Or.inl h1
        · exact Or.inr (List.mem_cons_of_mem _ h2)
      | false =>
        simp only [Bool.false_eq_true, if_false] at h
        rcases List.mem_cons.mp h with h1 | h1
        · exact Or.inl h1
        · rcases ih h1 with h2 | h3
          · exact Or.inl h2
          · exact Or.inr (List.mem_cons_of_mem _ h3)
    · simp only [hp, if_false] at h
      rcases List.mem_cons.mp h with h1 | h1
      · exact Or.inr (h1 ▸ List.mem_cons_self _ _)
      · rcases ih h1 with h2 | h3
        · exact Or.inl h2
        · exact Or.inr (List.mem_cons_of_mem _ h3)

/-! ## Normalizer-level lemmas -/

theorem mem_trimEnd {a : Nat} : ∀ {v : JStr}, a ∈ trimEnd v → a ∈ v := by
  intro v
  induction v with
  | nil => intro h; simp [trimEnd] at h
  | cons c cs ih =>
    intro h
    by_cases hd : trimEnd cs = []
    · rw [trimEnd_cons_of_nil hd] at h
      by_cases hw : isWsChar c = true
      · simp [hw] at h
      · simp [hw] at h
        exact h ▸ List.mem_cons_self _ _
    · rw [trimEnd_cons_of_ne_nil hd] at h
      rcases List.mem_cons.mp h with rfl | h'
      · exact List.mem_cons_self _ _
      · exact List.mem_cons_of_mem _ (ih h')

theorem mem_jsTrim {a : Nat} {v : JStr} (h : a ∈ jsTrim v) : a ∈ v := by
  unfold jsTrim at h
  exact mem_trimEnd ((List.dropWhile_sublist isWsChar).mem h)

/-- The normal form of `normalizeSeason`: one pass collapsing every
separator run to a single space, after lower-casing, then trim. -/
theorem normalizeSeason_nf (v : JStr) :
    normalizeSeason v = jsTrim (collapseSep (jsLower v) false) := by
  unfold normalizeSeason
  rw [collapseWs_sepToSpace]

theorem jsLowerChar_fix_of_mem_normalizeSeason {c : Nat} {v : JStr}
    (h : c ∈ normalizeSeason v) : jsLowerChar c = c := by
  rw [normalizeSeason_nf] at h
  have h1 := mem_jsTrim h
  rcases mem_replRuns h1 with rfl | h2
  · rfl
  · unfold jsLower at h2
    obtain ⟨d, _, rfl⟩ := List.mem_map.mp h2
    exact jsLowerChar_idem d

theorem jsLower_normalizeSeason (v : JStr) :
    jsLower (normalizeSeason v) = normalizeSeason v := by
  unfold jsLower
  have : ∀ c ∈ normalizeSeason v, jsLowerChar c = c := fun c hc =>
    jsLowerChar_fix_of_mem_normalizeSeason hc
  rw [List.map_congr_left this, List.map_id']

/-- `normalizeSeason` is idempotent. -/
theorem normalizeSeason_idem (v : JStr) :
    normalizeSeason (normalizeSeason v) = normalizeSeason v := by
  conv_lhs => rw [normalizeSeason_nf, jsLower_normalizeSeason, normalizeSeason_nf]
  rw [jsTrim_collapseSep_jsTrim, collapseSep_idem, ← normalizeSeason_nf]

/-- The dataset-id slug determines the normalized key: applying
"collapse separator runs and trim" to `slug(x)` recovers
`normalizeSeason x`. -/
theorem normalizeSeason_from_slug (a : JStr) :
    jsTrim (collapseSep (wsToHyphen (jsLower (jsTrim a))) false) = normalizeSeason a := by
  rw [collapseSep_wsToHyphen, jsLower_jsTrim, jsTrim_collapseSep_jsTrim, ← normalizeSeason_nf]

theorem slug_eq_imp_normalizeSeason_eq {a b : JStr}
    (h : wsToHyphen (jsLower (jsTrim a)) = wsToHyphen (jsLower (jsTrim b))) :
    normalizeSeason a = normalizeSeason b := by
  rw [← normalizeSeason_from_slug a, ← normalizeSeason_from_slug b, h]

/-! ## Stable sort lemmas -/

theorem insertBy_perm (le : α → α → Bool) (x : α) :
    ∀ l : List α, List.Perm (insertBy le x l) (x :: l) := by
  intro l
  induction l with
  | nil => exact List.Perm.refl _
  | cons h t ih =>
    by_cases hc : le x h = true
    · simp [insertBy, hc]
    · simp only [insertBy, hc, if_false, Bool.false_eq_true]
      exact (ih.cons h).trans (List.Perm.swap x h t)

theorem sortBy_perm (le : α → α → Bool) : ∀ l : List α, List.Perm (sortBy le l) l := by
  intro l
  induction l with
  | nil => exact List.Perm.refl _
  | cons x xs ih =>
    exact (insertBy_perm le x (sortBy le xs)).trans (ih.cons x)

theorem mem_sortBy {le : α → α → Bool} {a : α} {l : List α} :
    a ∈ sortBy le l ↔ a ∈ l :=
  (sortBy_perm le l).mem_iff

theorem mem_insertBy {le : α → α → Bool} {a x : α} {l : List α} :
    a ∈ insertBy le x l ↔ a = x ∨ a ∈ l := by
  rw [(insertBy_perm le x l).mem_iff, List.mem_cons]

theorem pairwise_insertBy_desc {R : (JStr × Nat) → (JStr × Nat) → Prop}
    {x : JStr × Nat} :
    ∀ {l : List (JStr × Nat)}, l.Pairwise (descTie R) → (∀ y ∈ l, R x y) →
      (insertBy descValue x l).Pairwise (descTie R) := by
  intro l
  induction l with
  | nil =>
    intro _ _
    simp [insertBy]
  | cons h t ih =>
    intro hl hx
    rw [List.pairwise_cons] at hl
    obtain ⟨hh, ht⟩ := hl
    by_cases hc : descValue x h = true
    · have hxh : h.2 ≤ x.2 := by
        simpa [descValue] using hc
      simp only [insertBy, hc, if_true]
      rw [List.pairwise_cons]
      refine ⟨?_, List.pairwise_cons.mpr ⟨hh, ht⟩⟩
      intro y hy
      rcases List.mem_cons.mp hy with rfl | hyt
      · rcases Nat.lt_or_ge y.2 x.2 with hlt | hge
        · exact Or.inl hlt
        · exact Or.inr ⟨Nat.le_antisymm hge hxh, hx y (List.mem_cons_self _ _)⟩
      · have hy2 : y.2 ≤ h.2 := by
          rcases hh y hyt with h1 | h2
          · exact Nat.le_of_lt h1
          · exact Nat.le_of_eq h2.1.symm
        rcases Nat.lt_or_ge y.2 x.2 with hlt | hge
        · exact Or.inl hlt
        · have : y.2 = x.2 := Nat.le_antisymm (hy2.trans hxh) hge
          exact Or.inr ⟨this.symm, hx y (List.mem_cons_of_mem _ hyt)⟩
    · have hxh : x.2 < h.2 := by
        have := (Bool.not_eq_true _).mp hc
        simpa [descValue, Nat.lt_iff_add_one_le, Nat.not_le] using
          (by simpa [descValue] using this : ¬ h.2 ≤ x.2)
      simp only [insertBy, hc, if_false, Bool.false_eq_true]
      rw [List.pairwise_cons]
      constructor
      · intro y hy
        rcases mem_insertBy.mp hy with rfl | hyt
        · exact Or.inl hxh
        · exact hh y hyt
      · exact ih ht (fun y hy => hx y (List.mem_cons_of_mem _ hy))

theorem pairwise_sortBy_desc {R : (JStr × Nat) → (JStr × Nat) → Prop} :
    ∀ {l : List (JStr × Nat)}, l.Pairwise R → (sortBy descValue l).Pairwise (descTie R) := by
  intro l
  induction l with
  | nil => intro _; simp [sortBy]
  | cons x xs ih =>
    intro h
    rw [List.pairwise_cons] at h
    obtain ⟨hx, hxs⟩ := h
    exact pairwise_insertBy_desc (ih hxs)
      (fun y hy => hx y (mem_sortBy.mp hy))

/-! ## Count-map lemmas -/

theorem bump_keys_of_mem : ∀ {acc : List (JStr × Nat)} {k : JStr},
    k ∈ acc.map Prod.fst → (bump acc k).map Prod.fst = acc.map Prod.fst := by
  intro acc
  induction acc with
  | nil => intro k h; simp at h
  | cons p t ih =>
    intro k h
    obtain ⟨a, v⟩ := p
    by_cases ha : a = k
    · simp [bump, ha]
    · simp only [List.map_cons] at h
      rcases List.mem_cons.mp h with h1 | h1
      · exact absurd h1.symm ha
      · simp [bump, ha, ih h1]

theorem bump_keys_of_not_mem : ∀ {acc : List (JStr × Nat)} {k : JStr},
    k ∉ acc.map Prod.fst → (bump acc k).map Prod.fst = acc.map Prod.fst ++ [k] := by
  intro acc
  induction acc with
  | nil => intro k _; simp [bump]
  | cons p t ih =>
    intro k h
    obtain ⟨a, v⟩ := p
    simp only [List.map_cons, List.mem_cons] at h
    push_neg at h
    obtain ⟨h1, h2⟩ := h
    have ha : ¬ a = k := fun hh => h1 hh.symm
    simp [bump, ha, ih h2]

theorem foldl_bump_keys : ∀ (ns : List JStr) (acc : List (JStr × Nat)),
    (ns.foldl bump acc).map Prod.fst =
      acc.map Prod.fst ++
        (foList ns).filter (fun y => decide (y ∉ acc.map Prod.fst)) := by
  intro ns
  induction ns with
  | nil => intro acc; simp [foList]
  | cons n ns ih =>
    intro acc
    rw [List.foldl_cons, ih (bump acc n)]
    by_cases hn : n ∈ acc.map Prod.fst
    · rw [bump_keys_of_mem hn]
      have hpn : (decide (n ∉ acc.map Prod.fst)) = false := by simp [hn]
      have : (foList (n :: ns)).filter (fun y => decide (y ∉ acc.map Prod.fst)) =
          (foList ns).filter (fun y => decide (y ∉ acc.map Prod.fst)) := by
        show ((n :: (foList ns).filter (· != n)).filter
            (fun y => decide (y ∉ acc.map Prod.fst))) = _
        rw [List.filter_cons_of_neg (by simp [hpn]), List.filter_filter]
        refine List.filter_congr ?_
        intro y _
        by_cases hy : y ∈ acc.map Prod.fst
        · simp [hy]
        · have : y ≠ n := fun heq => hy (heq ▸ hn)
          simp [hy, this]
      rw [this]
    · rw [bump_keys_of_not_mem hn]
      have hpn : (decide (n ∉ acc.map Prod.fst)) = true := by simp [hn]
      have hfo : (foList (n :: ns)).filter (fun y => decide (y ∉ acc.map Prod.fst)) =
          n :: (foList ns).filter (fun y => decide (y ∉ acc.map Prod.fst ++ [n])) := by
        show ((n :: (foList ns).filter (· != n)).filter
            (fun y => decide (y ∉ acc.map Prod.fst))) = _
        rw [List.filter_cons_of_pos (by simp [hpn]), List.filter_filter]
        congr 1
        refine List.filter_congr ?_
        intro y _
        by_cases hy1 : y ∈ acc.map Prod.fst <;> by_cases hy2 : y = n <;>
          simp [hy1, hy2, List.mem_append]
      rw [hfo, List.append_assoc]
      rfl

theorem firstIdx_cons_self (x : JStr) (xs : List JStr) : firstIdx x (x :: xs) = 0 := by
  simp [firstIdx]

theorem firstIdx_cons_ne {b x : JStr} (xs : List JStr) (h : b ≠ x) :
    firstIdx b (x :: xs) = firstIdx b xs + 1 := by
  have : ¬ x = b := fun hh => h hh.symm
  simp [firstIdx, this]

theorem foList_pairwise_firstIdx : ∀ ns : List JStr,
    (foList ns).Pairwise (fun a b => firstIdx a ns < firstIdx b ns) := by
  intro ns
  induction ns with
  | nil => simp [foList]
  | cons x xs ih =>
    rw [show foList (x :: xs) = x :: (foList xs).filter (· != x) from rfl,
      List.pairwise_cons]
    constructor
    · intro b hb
      have hbx : b ≠ x := by
        have := (List.mem_filter.mp hb).2
        simpa using this
      rw [firstIdx_cons_self, firstIdx_cons_ne xs hbx]
      exact Nat.succ_pos _
    · refine (ih.filter (· != x)).imp_of_mem ?_
      intro a b ha hb hab
      have hax : a ≠ x := by simpa using (List.mem_filter.mp ha).2
      have hbx : b ≠ x := by simpa using (List.mem_filter.mp hb).2
      rw [firstIdx_cons_ne xs hax, firstIdx_cons_ne xs hbx]
      exact Nat.succ_lt_succ hab

theorem calculateDistribution_eq_foldl (f : FashionItem → JStr) (rawData : List FashionItem) :
    calculateDistribution f rawData =
      (rawData.map (fun r => capFirst (f r))).foldl bump [] := by
  unfold calculateDistribution
  rw [List.foldl_map]

theorem pairwise_of_pairwise_map {α β : Type} {f : α → β} {R : β → β → Prop} :
    ∀ {l : List α}, (l.map f).Pairwise R → l.Pairwise (fun a b => R (f a) (f b)) := by
  intro l
  induction l with
  | nil => intro _; exact List.Pairwise.nil
  | cons x xs ih =>
    intro h
    rw [List.map_cons, List.pairwise_cons] at h
    exact List.pairwise_cons.mpr
      ⟨fun y hy => h.1 (f y) (List.mem_map_of_mem f hy), ih h.2⟩

theorem calculateDistribution_keys_pairwise (f : FashionItem → JStr)
    (rawData : List FashionItem) :
    (calculateDistribution f rawData).Pairwise
      (fun a b => firstIdx a.1 (rawData.map (fun r => capFirst (f r))) <
        firstIdx b.1 (rawData.map (fun r => capFirst (f r)))) := by
  set names := rawData.map (fun r => capFirst (f r)) with hnames
  have hkeys : (calculateDistribution f rawData).map Prod.fst = foList names := by
    rw [calculateDistribution_eq_foldl, ← hnames, foldl_bump_keys]
    simp
  have hp := foList_pairwise_firstIdx names
  rw [← hkeys] at hp
  exact @pairwise_of_pairwise_map (JStr × Nat) JStr Prod.fst
    (fun a b => firstIdx a names < firstIdx b names)
    (calculateDistribution f rawData) hp

theorem bump_snd_sum : ∀ (acc : List (JStr × Nat)) (k : JStr),
    ((bump acc k).map Prod.snd).sum = (acc.map Prod.snd).sum + 1 := by
  intro acc
  induction acc with
  | nil => intro k; simp [bump]
  | cons p t ih =>
    intro k
    obtain ⟨a, v⟩ := p
    by_cases ha : a = k
    · simp [bump, ha]
      omega
    · simp [bump, ha, ih k]
      omega

theorem foldl_bump_sum : ∀ (ns : List JStr) (acc : List (JStr × Nat)),
    ((ns.foldl bump acc).map Prod.snd).sum = (acc.map Prod.snd).sum + ns.length := by
  intro ns
  induction ns with
  | nil => intro acc; simp
  | cons n ns ih =>
    intro acc
    rw [List.foldl_cons, ih (bump acc n), bump_snd_sum]
    simp
    omega

theorem calculateDistribution_sum (f : FashionItem → JStr) (rawData : List FashionItem) :
    ((calculateDistribution f rawData).map Prod.snd).sum = rawData.length := by
  rw [calculateDistribution_eq_foldl, foldl_bump_sum]
  simp

theorem bump_snd_pos : ∀ {acc : List (JStr × Nat)} {k : JStr},
    (∀ q ∈ acc, 1 ≤ q.2) → ∀ q ∈ bump acc k, 1 ≤ q.2 := by
  intro acc
  induction acc with
  | nil =>
    intro k _ q hq
    simp [bump] at hq
    simp [hq]
  | cons p t ih =>
    intro k h q hq
    obtain ⟨a, v⟩ := p
    by_cases ha : a = k
    · simp only [bump, ha, if_true] at hq
      rcases List.mem_cons.mp hq with rfl | hq1
      · have := h (a, v) (List.mem_cons_self _ _)
        exact Nat.le_succ_of_le this
      · exact h q (List.mem_cons_of_mem _ hq1)
    · simp only [bump, ha, if_false] at hq
      rcases List.mem_cons.mp hq with rfl | hq1
      · exact h _ (List.mem_cons_self _ _)
      · exact ih (fun q' hq' => h q' (List.mem_cons_of_mem _ hq')) q hq1

theorem foldl_bump_pos : ∀ (ns : List JStr) (acc : List (JStr × Nat)),
    (∀ q ∈ acc, 1 ≤ q.2) → ∀ q ∈ ns.foldl bump acc, 1 ≤ q.2 := by
  intro ns
  induction ns with
  | nil => intro acc h q hq; exact h q hq
  | cons n ns ih =>
    intro acc h q hq
    exact ih (bump acc n) (bump_snd_pos h) q hq

theorem calculateDistribution_pos (f : FashionItem → JStr) (rawData : List FashionItem) :
    ∀ q ∈ calculateDistribution f rawData, 1 ≤ q.2 := by
  rw [calculateDistribution_eq_foldl]
  exact foldl_bump_pos _ [] (by simp)

/-! ## Filter-engine lemmas -/

theorem mem_filter_if {α : Type} {c : Prop} [Decidable c] {p : α → Bool} {l : List α} {a : α} :
    a ∈ (if c then l.filter p else l) ↔ a ∈ l ∧ (c → p a = true) := by
  by_cases hc : c
  · simp [hc, List.mem_filter]
  · simp [hc]

theorem mem_applyFilters {allData : List FashionItem} {fs : Filters} {r : FashionItem} :
    r ∈ applyFilters allData fs ↔ r ∈ allData ∧ passesFilters fs r := by
  unfold applyFilters passesFilters
  simp only [mem_filter_if]
  tauto

theorem applyFilters_empty (allData : List FashionItem) :
    applyFilters allData emptyFilters = allData := by
  simp [applyFilters, emptyFilters]

theorem applyFilters_mono {allData : List FashionItem} {P Q : Filters} {r : FashionItem}
    (hPQ : filtersSubset P Q) (hr : r ∈ applyFilters allData Q) :
    r ∈ applyFilters allData P := by
  rw [mem_applyFilters] at hr ⊢
  obtain ⟨hmem, hb, hs, hc, hi, hm⟩ := hr
  obtain ⟨pb, ps, pc, pi, pm⟩ := hPQ
  refine ⟨hmem, ?_, ?_, ?_, ?_, ?_⟩
  · rcases pb with h | h
    · intro hne; exact absurd h hne
    · intro hne; rw [h]; exact hb (h ▸ hne)
  · rcases ps with h | h
    · intro hne; exact absurd h hne
    · intro hne; rw [h]; exact hs (h ▸ hne)
  · rcases pc with h | h
    · intro hne; exact absurd h hne
    · intro hne; rw [h]; exact hc (h ▸ hne)
  · rcases pi with h | h
    · intro hne; exact absurd h hne
    · intro hne; rw [h]; exact hi (h ▸ hne)
  · rcases pm with h | h
    · intro hne; exact absurd h hne
    · intro hne; rw [h]; exact hm (h ▸ hne)

/-! ## Option-list (`getUniqueValues`) lemmas -/

theorem mem_setAdd {acc : List JStr} {x v : JStr} :
    v ∈ setAdd acc x ↔ v ∈ acc ∨ v = x := by
  unfold setAdd
  by_cases hx : x ∈ acc
  · simp only [hx, if_true]
    constructor
    · exact Or.inl
    · rintro (h | rfl)
      · exact h
      · exact hx
  · simp [hx, List.mem_append]

theorem mem_foldl_collect {k : FilterKey} :
    ∀ (l : List FashionItem) (acc : List JStr) (v : JStr),
      (v ∈ l.foldl
          (fun acc it =>
            if jsTrim (extractValue k it) ≠ [] then setAdd acc (offeredValue k it) else acc)
          acc) ↔
        v ∈ acc ∨ ∃ it ∈ l, jsTrim (extractValue k it) ≠ [] ∧ v = offeredValue k it := by
  intro l
  induction l with
  | nil => intro acc v; simp
  | cons it l ih =>
    intro acc v
    rw [List.foldl_cons, ih]
    by_cases hg : jsTrim (extractValue k it) ≠ []
    · rw [if_pos hg]
      constructor
      · rintro (h | h)
        · rcases mem_setAdd.mp h with h1 | rfl
          · exact Or.inl h1
          · exact Or.inr ⟨it, List.mem_cons_self _ _, hg, rfl⟩
        · obtain ⟨it', hit', hgu, rfl⟩ := h
          exact Or.inr ⟨it', List.mem_cons_of_mem _ hit', hgu, rfl⟩
      · rintro (h | h)
        · exact Or.inl (mem_setAdd.mpr (Or.inl h))
        · obtain ⟨it', hit', hgu, rfl⟩ := h
          rcases List.mem_cons.mp hit' with rfl | hmem
          · exact Or.inl (mem_setAdd.mpr (Or.inr rfl))
          · exact Or.inr ⟨it', hmem, hgu, rfl⟩
    · rw [if_neg hg]
      constructor
      · rintro (h | h)
        · exact Or.inl h
        · obtain ⟨it', hit', hgu, rfl⟩ := h
          exact Or.inr ⟨it', List.mem_cons_of_mem _ hit', hgu, rfl⟩
      · rintro (h | h)
        · exact Or.inl h
        · obtain ⟨it', hit', hgu, rfl⟩ := h
          rcases List.mem_cons.mp hit' with rfl | hmem
          · exact absurd hgu hg
          · exact Or.inr ⟨it', hmem, hgu, rfl⟩

theorem mem_getUniqueValues_of_ne_nil {allData : List FashionItem} {fs : Filters}
    {k : FilterKey} {v : JStr} (h : applyFilters allData fs ≠ []) :
    v ∈ getUniqueValues allData fs k ↔
      ∃ it ∈ applyFilters allData fs,
        jsTrim (extractValue k it) ≠ [] ∧ v = offeredValue k it := by
  unfold getUniqueValues
  rw [mem_sortBy]
  have hlen : (applyFilters allData fs).length > 0 := List.length_pos.mpr h
  rw [if_pos hlen, mem_foldl_collect]
  simp

/-! ## Pie-chart lemmas -/

theorem sliceAngles_length (total : ℚ) :
    ∀ (l : List PieDatum) (cum : ℚ), (sliceAngles total cum l).length = l.length := by
  intro l
  induction l with
  | nil => intro cum; rfl
  | cons b t ih => intro cum; simp [sliceAngles, ih]

theorem sliceAngles_span_sum (total : ℚ) :
    ∀ (l : List PieDatum) (cum : ℚ),
      ((sliceAngles total cum l).map sliceSpan).sum =
        (l.map (fun b => b.value / total * 100)).sum * 3.6 := by
  intro l
  induction l with
  | nil => intro cum; simp [sliceAngles]
  | cons b t ih =>
    intro cum
    simp only [sliceAngles, List.map_cons, List.sum_cons, ih, sliceSpan]
    ring

theorem pct_sum (total : ℚ) :
    ∀ l : List PieDatum,
      (l.map (fun b => b.value / total * 100)).sum =
        (l.map (·.value)).sum / total * 100 := by
  intro l
  induction l with
  | nil => simp
  | cons b t ih =>
    simp only [List.map_cons, List.sum_cons, ih]
    ring

theorem pieSlices_span_sum {data : List PieDatum} (h : 0 < pieTotal data) :
    ((pieSlices data).map sliceSpan).sum = 360 := by
  have hne : pieTotal data ≠ 0 := ne_of_gt h
  unfold pieSlices
  rw [if_neg hne, sliceAngles_span_sum, pct_sum]
  show ((pieDisplayData data).map (·.value)).sum / pieTotal data * 100 * 3.6 = 360
  rw [show ((pieDisplayData data).map (·.value)).sum = pieTotal data from rfl,
    div_self hne]
  norm_num

theorem pieSlices_head_start {data : List PieDatum} (h : 0 < pieTotal data) :
    ∃ p, (pieSlices data).head? = some p ∧ p.1 = 0 := by
  have hne : pieTotal data ≠ 0 := ne_of_gt h
  unfold pieSlices
  rw [if_neg hne]
  cases hd : pieDisplayData data with
  | nil =>
    exfalso
    apply hne
    unfold pieTotal
    rw [hd]
    rfl
  | cons b t =>
    refine ⟨(0 * 3.6, (0 + b.value / pieTotal data * 100) * 3.6), ?_, by ring⟩
    simp [sliceAngles]

theorem wsToHyphen_determines_normalizeSeason {a b : JStr}
    (h : wsToHyphen (jsLower a) = wsToHyphen (jsLower b)) :
    normalizeSeason a = normalizeSeason b := by
  have h2 := congrArg (fun x => jsTrim (collapseSep x false)) h
  simpa [collapseSep_wsToHyphen, ← normalizeSeason_nf] using h2

/-! ## Claims -/

/-- C1, counterexample: "chanel" is a known brand key and "autumn-2030" an
unknown season key, so the pair is absent from the folder mapping, yet
`getFolder` returns the fixed default `fashion-intelligence-input` rather
than the synthesized `chanel-ready-to-wear-autumn-2030-paris` the claim
requires. -/
theorem C1_counterexample :
    resolvedFolder (jstr "Chanel") (jstr "Autumn 2030") = none ∧
    getFolder (jstr "Chanel") (jstr "Autumn 2030") = jstr "fashion-intelligence-input" ∧
    getFolder (jstr "Chanel") (jstr "Autumn 2030") ≠
      specSynthesizedFolder (jstr "Chanel") (jstr "Autumn 2030") := by
  refine ⟨by decide, by decide, by decide⟩

/-- C1, amended: for every brand and season pair whose normalized keys are
absent from the folder mapping, `getFolder` returns the fixed default
folder `"fashion-intelligence-input"` (it never synthesizes a
`…-ready-to-wear-…-paris` name); in particular a known brand with an
unknown season (and vice versa) yields this default rather than any other
value. -/
theorem C1_folder_fallback (brand season : JStr)
    (h : resolvedFolder brand season = none) :
    getFolder brand season = jstr "fashion-intelligence-input" := by
  unfold getFolder
  rw [h]

/-- C1 witness: the amended fallback behaviour at a concrete absent pair. -/
theorem C1_folder_fallback_witness :
    getFolder (jstr "Chanel") (jstr "Autumn 2030") = jstr "fashion-intelligence-input" :=
  C1_folder_fallback (jstr "Chanel") (jstr "Autumn 2030") (by decide)

/-- C2, counterexample: two records of the same designer whose seasons
"Fall-Winter 2025" and "fall_winter_2025" have equal NormalizedKeys
(`normalizeSeason` is exactly the trim/lower-case/separator-to-space/
collapse recipe) are nevertheless bucketed into different datasets: the
dataset ids differ, because the id slug replaces only whitespace runs
with hyphens and never identifies `-`/`_` variants.  This refutes the
"if and only if" of the claim. -/
theorem C2_counterexample :
    normalizeSeason sampleCoat.designer = normalizeSeason sampleCoatUnderscore.designer ∧
    normalizeSeason sampleCoat.season = normalizeSeason sampleCoatUnderscore.season ∧
    datasetId sampleCoat ≠ datasetId sampleCoatUnderscore := by
  refine ⟨by decide, by decide, by decide⟩

/-- C2, amended: records are bucketed into the same dataset exactly when
their synthetic ids agree, and equality of the componentwise slugs
(trim, lower-case, whitespace runs to single hyphens) of designer and
season is sufficient for that; equal slugs also force equal
NormalizedKeys for designer and season.  (The converse of the original
claim fails: NormalizedKey equality does not imply the same dataset, see
the counterexample.) -/
theorem C2_same_dataset (it1 it2 : FashionItem)
    (hd : wsToHyphen (jsLower (designerOrDefault it1)) =
      wsToHyphen (jsLower (designerOrDefault it2)))
    (hs : wsToHyphen (jsLower (seasonOrDefault it1)) =
      wsToHyphen (jsLower (seasonOrDefault it2))) :
    datasetId it1 = datasetId it2 ∧
    normalizeSeason (designerOrDefault it1) = normalizeSeason (designerOrDefault it2) ∧
    normalizeSeason (seasonOrDefault it1) = normalizeSeason (seasonOrDefault it2) := by
  refine ⟨?_, wsToHyphen_determines_normalizeSeason hd,
    wsToHyphen_determines_normalizeSeason hs⟩
  unfold datasetId
  rw [hd, hs]

/-- C2 witness: two spellings of the same (designer, season) pair whose
slugs agree land in one dataset with equal NormalizedKeys. -/
theorem C2_same_dataset_witness :
    datasetId sampleCoatSpaced = datasetId sampleCoatSpaced2 ∧
    normalizeSeason (designerOrDefault sampleCoatSpaced) =
      normalizeSeason (designerOrDefault sampleCoatSpaced2) ∧
    normalizeSeason (seasonOrDefault sampleCoatSpaced) =
      normalizeSeason (seasonOrDefault sampleCoatSpaced2) :=
  C2_same_dataset sampleCoatSpaced sampleCoatSpaced2 (by decide) (by decide)

/-- C3, counterexample: with a single red record and an active color
filter "blue", the filtered subset is empty, yet `getUniqueValues`
offers the value "Red", which occurs in no record satisfying the active
predicates — the option list falls back to the full record set instead
of the (empty) filtered subset. -/
theorem C3_counterexample :
    applyFilters [sampleCoat] { emptyFilters with color := jstr "blue" } = [] ∧
    getUniqueValues [sampleCoat] { emptyFilters with color := jstr "blue" } FilterKey.color =
      [jstr "Red"] := by
  refine ⟨by decide, by decide⟩

/-- C3, amended: whenever the filtered subset is non-empty, the offered
option values for each field are computed over exactly that subset:
a value is offered iff some record satisfying all active predicates
yields it (after display formatting), with blank values skipped.  When
the filtered subset is empty the implementation instead falls back to
the full record set (see counterexample). -/
theorem C3_availableValues (allData : List FashionItem) (fs : Filters)
    (k : FilterKey) (v : JStr) (h : applyFilters allData fs ≠ []) :
    v ∈ getUniqueValues allData fs k ↔
      ∃ it ∈ applyFilters allData fs,
        jsTrim (extractValue k it) ≠ [] ∧ v = offeredValue k it :=
  mem_getUniqueValues_of_ne_nil h

/-- C3 witness: with no active filters the filtered subset is the full
(non-empty) list and "Red" is offered because the red coat survives
filtering. -/
theorem C3_availableValues_witness :
    jstr "Red" ∈ getUniqueValues [sampleCoat] emptyFilters FilterKey.color :=
  (C3_availableValues [sampleCoat] emptyFilters FilterKey.color (jstr "Red")
    (by decide)).mpr ⟨sampleCoat, by decide, by decide, by decide⟩

/-- C4: the aggregator output is sorted descending by count with ties in
first-encountered order of the bucket name in the input sequence (the
pairwise condition makes the order fully deterministic), and on the
`[Coat, Coat, Skirt]` scenario it returns exactly
`[{Coat, 2}, {Skirt, 1}]` in that order. -/
theorem C4_aggregate_order :
    (∀ rawData : List FashionItem,
      (formatDistributionData rawData (calculateItemDistribution rawData)
        DistType.item).Pairwise
        (fun a b => b.value < a.value ∨ (a.value = b.value ∧
          firstIdx a.name (rawData.map (fun r => capFirst r.item_name)) <
            firstIdx b.name (rawData.map (fun r => capFirst r.item_name))))) ∧
    formatDistributionData coatCoatSkirt (calculateItemDistribution coatCoatSkirt)
        DistType.item =
      [{ name := jstr "Coat", value := 2, color := none },
       { name := jstr "Skirt", value := 1, color := none }] := by
  constructor
  · intro rawData
    have h1 := calculateDistribution_keys_pairwise (fun r => r.item_name) rawData
    have h2 := pairwise_sortBy_desc h1
    have h3 := List.Pairwise.sublist (List.take_sublist 10 _) h2
    have hform : formatDistributionData rawData (calculateItemDistribution rawData)
        DistType.item =
        ((sortBy descValue (calculateDistribution (fun r => r.item_name) rawData)).take 10).map
          (fun p => ({ name := p.1, value := p.2, color := none } : Bucket)) := by
      simp [formatDistributionData, calculateItemDistribution]
    rw [hform]
    refine List.Pairwise.map _ ?_ h3
    intro a b hab
    rcases hab with h | ⟨heq, hlt⟩
    · exact Or.inl h
    · exact Or.inr ⟨heq, hlt⟩
  · decide

/-- C5: for every bucket list whose displayed total is positive, the pie
slices are laid out in input order starting at angle 0 (first slice
starts at the 12-o'clock position) and, in exact rational arithmetic,
the angular spans `endAngle - startAngle` of all slices sum to exactly
360. -/
theorem C5_slice_spans (data : List PieDatum) (h : 0 < pieTotal data) :
    ((pieSlices data).map sliceSpan).sum = 360 ∧
    ∃ p, (pieSlices data).head? = some p ∧ p.1 = 0 :=
  ⟨pieSlices_span_sum h, pieSlices_head_start h⟩

/-- C5 witness: the single-bucket chart has one slice spanning the full
circle, starting at angle 0. -/
theorem C5_slice_spans_witness :
    ((pieSlices pieOne).map sliceSpan).sum = 360 ∧
    ∃ p, (pieSlices pieOne).head? = some p ∧ p.1 = 0 :=
  C5_slice_spans pieOne (by simp [pieTotal, pieDisplayData, pieOne])

/-- C6: for every record list and grouping field, the sum of the bucket
values the aggregator returns is at most the number of records, with
equality exactly when the number of distinct groups is at most 10; when
more than 10 groups exist, the dropped groups' counts are simply missing
from the sum (strict inequality, no "other" bucket). -/
theorem C6_aggregate_sum (f : FashionItem → JStr) (rawData : List FashionItem)
    (ty : DistType) :
    (((formatDistributionData rawData (calculateDistribution f rawData) ty).map
        (·.value)).sum ≤ rawData.length) ∧
    ((((formatDistributionData rawData (calculateDistribution f rawData) ty).map
        (·.value)).sum = rawData.length) ↔
      (calculateDistribution f rawData).length ≤ 10) := by
  have hval : (formatDistributionData rawData (calculateDistribution f rawData) ty).map
      (·.value) =
      ((sortBy descValue (calculateDistribution f rawData)).take 10).map Prod.snd := by
    cases ty <;>
      (simp only [formatDistributionData, List.map_map]
       exact List.map_congr_left (fun p _ => rfl))
  have hperm : List.Perm (sortBy descValue (calculateDistribution f rawData))
      (calculateDistribution f rawData) := sortBy_perm _ _
  have hsum : ((sortBy descValue (calculateDistribution f rawData)).map Prod.snd).sum =
      rawData.length := by
    rw [List.Perm.sum_eq (hperm.map Prod.snd)]
    exact calculateDistribution_sum f rawData
  have hsplit : ((sortBy descValue (calculateDistribution f rawData)).map Prod.snd).sum =
      (((sortBy descValue (calculateDistribution f rawData)).take 10).map Prod.snd).sum +
      (((sortBy descValue (calculateDistribution f rawData)).drop 10).map Prod.snd).sum := by
    conv_lhs =>
      rw [← List.take_append_drop 10 (sortBy descValue (calculateDistribution f rawData))]
    rw [List.map_append, List.sum_append]
  constructor
  · rw [hval]
    omega
  · rw [hval]
    constructor
    · intro heq
      have hd0 : (((sortBy descValue (calculateDistribution f rawData)).drop 10).map
          Prod.snd).sum = 0 := by omega
      have hdnil : (sortBy descValue (calculateDistribution f rawData)).drop 10 = [] := by
        cases hcase : (sortBy descValue (calculateDistribution f rawData)).drop 10 with
        | nil => rfl
        | cons q t =>
          exfalso
          have hq : q ∈ (sortBy descValue (calculateDistribution f rawData)).drop 10 := by
            rw [hcase]; exact List.mem_cons_self _ _
          have hqs : q ∈ sortBy descValue (calculateDistribution f rawData) :=
            (List.drop_sublist 10 _).mem hq
          have hqd : q ∈ calculateDistribution f rawData := hperm.mem_iff.mp hqs
          have hpos := calculateDistribution_pos f rawData q hqd
          have : q.2 = 0 := by
            have hmem : q.2 ∈ ((sortBy descValue (calculateDistribution f rawData)).drop
                10).map Prod.snd := List.mem_map_of_mem Prod.snd hq
            exact (List.sum_eq_zero_iff.mp hd0) q.2 hmem
          omega
      have := List.drop_eq_nil_iff.mp hdnil
      rwa [hperm.length_eq] at this
    · intro hlen
      have : (sortBy descValue (calculateDistribution f rawData)).length ≤ 10 := by
        rwa [hperm.length_eq]
      rw [List.take_of_length_le this]
      exact hsum

/-- C7: the season normalizer is idempotent on every string, and is case-
and separator-insensitive: the three spellings "Fall-Winter 2025",
"fall_winter_2025" and "Fall  Winter   2025" all normalize to the same
key. -/
theorem C7_normalize_idempotent :
    (∀ v : JStr, normalizeSeason (normalizeSeason v) = normalizeSeason v) ∧
    normalizeSeason (jstr "Fall-Winter 2025") = normalizeSeason (jstr "fall_winter_2025") ∧
    normalizeSeason (jstr "fall_winter_2025") =
      normalizeSeason (jstr "Fall  Winter   2025") := by
  refine ⟨normalizeSeason_idem, by decide, by decide⟩

/-- C8: filtering is monotonic — if every active predicate of `P` appears
in `Q` then the `Q`-filtered list is a subset of the `P`-filtered list;
moreover an all-empty predicate set imposes no constraint, and membership
in the filtered list is exactly "membership in the input and passing the
AND of all active case-insensitive containment tests (season compared on
normalized forms)". -/
theorem C8_filter_monotonic (allData : List FashionItem) (P Q : Filters)
    (r : FashionItem) :
    (filtersSubset P Q → r ∈ applyFilters allData Q → r ∈ applyFilters allData P) ∧
    applyFilters allData emptyFilters = allData ∧
    (r ∈ applyFilters allData P ↔ r ∈ allData ∧ passesFilters P r) := by
  refine ⟨fun hPQ hr => applyFilters_mono hPQ hr, applyFilters_empty allData,
    mem_applyFilters⟩

/-- C8 witness: the red coat passes the stricter filter set {color "red",
item "coat"} and therefore also the weaker {color "red"}. -/
theorem C8_filter_monotonic_witness :
    sampleCoat ∈ applyFilters [sampleCoat] { emptyFilters with color := jstr "red" } :=
  (C8_filter_monotonic [sampleCoat] { emptyFilters with color := jstr "red" }
    { emptyFilters with color := jstr "red", item := jstr "coat" } sampleCoat).1
    ⟨Or.inl rfl, Or.inl rfl, Or.inr rfl, Or.inl rfl, Or.inl rfl⟩ (by decide)

/-- C9: the folder resolver is total — for every brand and season string
it returns a non-empty string (never throws), and the unrecognized pair
("Unknown Brand", "Spring 2025") resolves to the fixed default sentinel
`fashion-intelligence-input`. -/
theorem C9_getFolder_total :
    (∀ brand season : JStr, getFolder brand season ≠ []) ∧
    getFolder (jstr "Unknown Brand") (jstr "Spring 2025") =
      jstr "fashion-intelligence-input" := by
  constructor
  · intro brand season
    unfold getFolder
    cases hr : resolvedFolder brand season with
    | none => decide
    | some v =>
      show (if (v == []) = true then jstr "fashion-intelligence-input" else v) ≠ []
      by_cases hv : (v == []) = true
      · rw [if_pos hv]
        decide
      · rw [if_neg hv]
        simpa using hv
  · decide

/-- C10, counterexample: eleven buckets all of value 0 give a displayed
total of 0, so the renderer takes the "No data" branch and produces zero
slices, not the ten the claim promises for every input with more than
ten buckets. -/
theorem C10_counterexample :
    10 < pieZero11.length ∧ (pieSlices pieZero11).length = 0 := by
  constructor
  · decide
  · have h0 : pieTotal pieZero11 = 0 := by
      simp [pieTotal, pieDisplayData, pieZero11, List.take_replicate, List.sum_replicate]
    simp [pieSlices, h0]

/-- C10, amended: for every input list with more than 10 buckets whose
first ten values have positive sum, the renderer truncates to exactly 10
slices, each displayed percentage is the bucket's value divided by the
sum of the first 10 values (times 100), and the ten spans still sum to
exactly 360 regardless of the dropped entries. -/
theorem C10_truncation (data : List PieDatum) (hlen : 10 < data.length)
    (hpos : 0 < pieTotal data) :
    (pieSlices data).length = 10 ∧
    ((pieSlices data).map sliceSpan).sum = 360 ∧
    piePercentages data =
      (data.take 10).map (fun b => b.value / ((data.take 10).map (·.value)).sum * 100) := by
  have hne : pieTotal data ≠ 0 := ne_of_gt hpos
  refine ⟨?_, pieSlices_span_sum hpos, ?_⟩
  · unfold pieSlices
    rw [if_neg hne, sliceAngles_length]
    unfold pieDisplayData
    rw [List.length_take]
    omega
  · unfold piePercentages
    rw [if_neg hne]
    rfl

/-- C10 witness: eleven buckets with positive displayed total produce
exactly ten slices summing to a full circle. -/
theorem C10_truncation_witness :
    (pieSlices pieEleven).length = 10 ∧
    ((pieSlices pieEleven).map sliceSpan).sum = 360 ∧
    piePercentages pieEleven =
      (pieEleven.take 10).map
        (fun b => b.value / ((pieEleven.take 10).map (·.value)).sum * 100) :=
  C10_truncation pieEleven (by decide)
    (by simp [pieTotal, pieDisplayData, pieEleven, List.take_replicate, List.sum_replicate])
